import Mathlib

/-!
Demo application (`Demo/main.c`): decimal printer and periodic counter tasks.

A shallow embedding of the task bodies of `Demo/main.c`:

* `printNumber`, the backward-filling decimal printer over the local buffer `char msg[10]`;
* `pinky`, `brain`, `droopy`, the three counter tasks over the globals `tom`, `jerry`, `popeye`;
* the parameter prologue and loop body of `vTaskFunction` and `vPeriodicTaskFunction`.

Conventions.  A C `int` is a Lean `Int` in the range `[-2^31, 2^31)`; the increment wraps
(`wrap32`), `/` and `%` truncate toward zero (`Int.tdiv`, `Int.tmod`), `&` acts on the 32-bit
two's-complement patterns and `>>` is the arithmetic shift.  The buffer `msg` is a list of ten
cells, a cell that was never written is `none`, and every access of `printNumber` is
bounds-checked, so that an access outside `msg[0..9]` is an explicit outcome of the model.
`printNumberIn` runs the same statements without the check, as the C code does, with `msg`
inside a larger region of bytes; it decides which text reaches `vDirectPrintMsg` when an
index leaves the array.
-/

namespace Demo

/-! ## C integer arithmetic -/

/-- The `int` value of an integer after 32-bit two's-complement wrap-around. -/
def wrap32 (x : Int) : Int := (x + 2147483648) % 4294967296 - 2147483648

/-- The unsigned 32-bit pattern of an `int`. -/
def bits32 (x : Int) : Nat := (x % 4294967296).toNat

/-- The operator `a & b` on `int`: bitwise and of the two 32-bit patterns, read back as an
`int`. -/
def int_and (a b : Int) : Int := wrap32 (Int.ofNat (bits32 a &&& bits32 b))

/-- The operator `a >> n` on `int`: arithmetic (sign-propagating) right shift. -/
def int_shr (a : Int) (n : Nat) : Int := a >>> n

/-! ## The buffer `char msg[10]` -/

/-- Contents of `msg`: one cell per element, `none` while the element is still indeterminate. -/
abbrev Buffer := List (Option Char)

/-- The declaration `char msg[10];`: ten indeterminate cells. -/
def msgInit : Buffer := List.replicate 10 none

/-- The assignment `msg[i] = c`, defined only for an index inside the buffer. -/
def store (msg : Buffer) (i : Int) (c : Char) : Option Buffer :=
  if 0 ≤ i ∧ i < (msg.length : Int) then some (msg.set i.toNat (some c)) else none

/-- How a call of `printNumber` ends. -/
inductive Outcome where
  /-- Normal return: the indices written (in order), the index handed to `vDirectPrintMsg`
  and the characters `vDirectPrintMsg` reads from there up to the terminator. -/
  | printed (writes : List Int) (start : Int) (text : String)
  /-- An access to `msg[index]` with `index` outside `0..9`. -/
  | outOfBounds (index : Int)
  /-- A read of `msg[index]` before any write to it. -/
  | indeterminate (index : Int)
  /-- The loop did not finish within the iterations allotted by the model. -/
  | outOfFuel
  deriving DecidableEq

/-- The characters of the C string that starts at the head of `cells` (which is `msg[idx]`),
read up to the first NUL; `acc` holds the characters read so far. -/
def readString : List (Option Char) → Int → List Char → Except Outcome (List Char)
  | [], idx, _ => .error (.outOfBounds idx)
  | none :: _, idx, _ => .error (.indeterminate idx)
  | some c :: rest, idx, acc =>
    if c = Char.ofNat 0 then .ok acc else readString rest (idx + 1) (acc ++ [c])

/-- The call `vDirectPrintMsg(&msg[start])` at the end of `printNumber`. -/
def emitFrom (msg : Buffer) (start : Int) (writes : List Int) : Outcome :=
  if 0 ≤ start ∧ start < (msg.length : Int) then
    match readString (msg.drop start.toNat) start [] with
    | .ok cs => .printed writes start (String.mk cs)
    | .error e => e
  else .outOfBounds start

/-- The character `'0' + (nr % 10)` stored into a `char`. -/
def digitOf (nr : Int) : Char := Char.ofNat ((48 + Int.tmod nr 10) % 256).toNat

/-- The loop `while(nr) { msg[i--] = '0' + (nr % 10); nr = nr/10; }` followed by
`vDirectPrintMsg(&msg[i+1])`; `fuel` bounds the number of iterations. -/
def printLoop : Nat → Int → Int → Buffer → List Int → Outcome
  | 0, nr, i, msg, ws => if nr = 0 then emitFrom msg (i + 1) ws else .outOfFuel
  | fuel + 1, nr, i, msg, ws =>
    if nr = 0 then emitFrom msg (i + 1) ws
    else
      match store msg i (digitOf nr) with
      | none => .outOfBounds i
      | some msg1 => printLoop fuel (Int.tdiv nr 10) (i - 1) msg1 (ws ++ [i])

/-- The function `printNumber(int nr)`: `i = 9; msg[i--] = 0;` then the digit loop and the
final `vDirectPrintMsg`.  The loop is given `|nr|` iterations, which it never uses up. -/
def printNumber (nr : Int) : Outcome :=
  match store msgInit 9 (Char.ofNat 0) with
  | none => .outOfBounds 9
  | some msg => printLoop nr.natAbs nr 8 msg [9]

/-! ## `printNumber` without the bounds check

The C code tests no index: a store to `msg[-1]` goes to the byte that precedes `msg`, and the
loop goes on.  The model below runs the same statements with `msg` placed inside a larger
region of addressable bytes, `pad` bytes of which precede `msg[0]`; these bytes are taken to
hold no other object.  Indices are reported relative to `msg`, so an index below 0 or above 9
in the outcome is an access outside the array. -/

/-- An outcome whose indices are positions in the region, re-expressed as indices of `msg`,
which starts `pad` bytes into the region. -/
def Outcome.rebase (pad : Nat) : Outcome → Outcome
  | .printed writes start text =>
    .printed (writes.map (fun w => w - (pad : Int))) (start - (pad : Int)) text
  | .outOfBounds index => .outOfBounds (index - (pad : Int))
  | .indeterminate index => .indeterminate (index - (pad : Int))
  | .outOfFuel => .outOfFuel

/-- The function `printNumber(int nr)` run with `pad` addressable bytes in front of `msg`:
`i = 9; msg[i--] = 0;`, the digit loop and the final `vDirectPrintMsg`, where `msg[j]` is
byte `j + pad` of the region.  With `pad = 0` this is `printNumber`. -/
def printNumberIn (pad : Nat) (nr : Int) : Outcome :=
  match store (List.replicate pad none ++ msgInit) (9 + (pad : Int)) (Char.ofNat 0) with
  | none => .outOfBounds 9
  | some region =>
    (printLoop nr.natAbs nr (8 + (pad : Int)) region [9 + (pad : Int)]).rebase pad

/-! ## The periodic counter tasks -/

/-- The globals `tom`, `jerry`, `popeye` together with the log of the strings handed so far
to `vDirectPrintMsg` by the counter tasks, one entry per call. -/
structure Globals where
  tom : Int
  jerry : Int
  popeye : Int
  log : List String
  deriving DecidableEq

/-- The initialisers `int tom = 0; int jerry = 1; int popeye = 2;`, before any task output. -/
def boot : Globals := { tom := 0, jerry := 1, popeye := 2, log := [] }

/-- Modelled from the spec: the body of `vDirectPrintMsg` is not part of `Demo/` (only its
declaration in `app_include.h` is); it is the immediate, unbuffered output of one string,
recorded here by appending the string to the log. -/
def vDirectPrintMsg (log : List String) (s : String) : List String := log ++ [s]

/-- One iteration of the loop of `pinky`; `none` if `printNumber` leaves its buffer. -/
def pinky (g : Globals) : Option Globals :=
  let tom := wrap32 (g.tom + 1)
  if int_and tom 8388607 = 8388607 then
    match printNumber (int_shr tom 23) with
    | .printed _ _ text =>
      some { g with
        tom := tom
        log := vDirectPrintMsg (vDirectPrintMsg (vDirectPrintMsg g.log "tom: ") text) "\r\n" }
    | _ => none
  else some { g with tom := tom }

/-- One iteration of the loop of `brain`; `none` if `printNumber` leaves its buffer. -/
def brain (g : Globals) : Option Globals :=
  let jerry := wrap32 (g.jerry + 1)
  if int_and jerry 8388607 = 8388607 then
    match printNumber (int_shr jerry 23) with
    | .printed _ _ text =>
      some { g with
        jerry := jerry
        log := vDirectPrintMsg (vDirectPrintMsg (vDirectPrintMsg g.log "jerry: ") text) "\r\n" }
    | _ => none
  else some { g with jerry := jerry }

/-- One iteration of the loop of `droopy`; `none` if `printNumber` leaves its buffer. -/
def droopy (g : Globals) : Option Globals :=
  let popeye := wrap32 (g.popeye + 1)
  if int_and popeye 8388607 = 8388607 then
    match printNumber (int_shr popeye 23) with
    | .printed _ _ text =>
      some { g with
        popeye := popeye
        log := vDirectPrintMsg (vDirectPrintMsg (vDirectPrintMsg g.log "popeye: ") text) "\r\n" }
    | _ => none
  else some { g with popeye := popeye }

/-- The three periodic counter tasks created by `main`. -/
inductive CounterTask where
  | pinky
  | brain
  | droopy
  deriving DecidableEq

namespace CounterTask

/-- The loop body of a task. -/
def body : CounterTask → Globals → Option Globals
  | .pinky => Demo.pinky
  | .brain => Demo.brain
  | .droopy => Demo.droopy

/-- The counter a task owns. -/
def counter : CounterTask → Globals → Int
  | .pinky, g => g.tom
  | .brain, g => g.jerry
  | .droopy, g => g.popeye

/-- The label a task prints before the number. -/
def label : CounterTask → String
  | .pinky => "tom: "
  | .brain => "jerry: "
  | .droopy => "popeye: "

/-- The initial value of the counter a task owns
(`int tom = 0; int jerry = 1; int popeye = 2;`). -/
def initial : CounterTask → Nat
  | .pinky => 0
  | .brain => 1
  | .droopy => 2

/-- The state `g` with the counter of the task set to `c` and the log set to `l`. -/
def update : CounterTask → Globals → Int → List String → Globals
  | .pinky, g, c, l => { g with tom := c, log := l }
  | .brain, g, c, l => { g with jerry := c, log := l }
  | .droopy, g, c, l => { g with popeye := c, log := l }

end CounterTask

/-- The state after `k` iterations of the loop of task `t`, started in `g`. -/
def run (t : CounterTask) : Nat → Globals → Option Globals
  | 0, g => some g
  | k + 1, g => (run t k g).bind t.body

/-- The total output of the counter tasks: the logged strings, concatenated. -/
def output (g : Globals) : String := String.join g.log

/-- Whether a value is representable in the 32-bit `int`. -/
def IsInt32 (c : Int) : Prop := -2147483648 ≤ c ∧ c ≤ 2147483647

instance (c : Int) : Decidable (IsInt32 c) := by unfold IsInt32; infer_instance

/-- The test `(counter & 8388607) == 8388607` of the task loops. -/
def fires (c : Int) : Bool := decide (int_and c 8388607 = 8388607)

/-- The text `printNumber(v)` hands to `vDirectPrintMsg` (empty if the call leaves the buffer). -/
def textOf (v : Int) : String :=
  match printNumber v with
  | .printed _ _ text => text
  | _ => ""

/-- The strings an iteration of task `t` hands to `vDirectPrintMsg` when the incremented
counter is `c`. -/
def emission (t : CounterTask) (c : Int) : List String :=
  if fires c then [t.label, textOf (int_shr c 23), "\r\n"] else []

/-- The strings `k` iterations of task `t` hand to `vDirectPrintMsg`, for a counter
that starts at `c0`. -/
def emissions (t : CounterTask) (c0 : Int) : Nat → List String
  | 0 => []
  | k + 1 => emissions t c0 k ++ emission t (wrap32 (c0 + ((k + 1 : Nat) : Int)))

/-- The first `k` emissions of task `t` when emission number `j` prints the value `j - 1`. -/
def schedule (t : CounterTask) : Nat → List String
  | 0 => []
  | k + 1 => schedule t k ++ [t.label, textOf (k : Int), "\r\n"]

/-! ## The message/delay task template -/

/-- The struct `paramStruct`; a `text` of `none` is the NULL pointer. -/
structure paramStruct where
  text : Option String
  delay : Nat

/-- The constant `defaultText`. -/
def defaultText : String := "<NO TEXT>\r\n"

/-- The constant `defaultDelay`. -/
def defaultDelay : Nat := 1000

/-- Calls the message/delay tasks make to the kernel and the print queue. -/
inductive Call where
  | vPrintMsg (text : String)
  | vTaskDelay (ticks : Nat)
  | vTaskDelayUntil (ticks : Nat)
  deriving DecidableEq

/-- The locals `taskName` and `delay` of `vTaskFunction` after its first two assignments;
`pvParameters = none` is the NULL pointer. -/
def vTaskFunction_locals (pvParameters : Option paramStruct) : String × Nat :=
  let taskName :=
    match pvParameters with
    | none => defaultText
    | some params =>
      match params.text with
      | none => defaultText
      | some text => text
  let delay :=
    match pvParameters with
    | none => defaultDelay
    | some params => params.delay
  (taskName, delay)

/-- The calls made by the first `n` iterations of the loop of `vTaskFunction`;
`portTICK_RATE_MS` is the kernel's tick period, a constant defined outside `Demo/`. -/
def vTaskFunction (pvParameters : Option paramStruct) (portTICK_RATE_MS : Nat) :
    Nat → List Call
  | 0 => []
  | n + 1 =>
    vTaskFunction pvParameters portTICK_RATE_MS n ++
      [.vPrintMsg (vTaskFunction_locals pvParameters).1,
       .vTaskDelay ((vTaskFunction_locals pvParameters).2 / portTICK_RATE_MS)]

/-- The locals `taskName` and `delay` of `vPeriodicTaskFunction` after its first two
assignments; `pvParameters = none` is the NULL pointer. -/
def vPeriodicTaskFunction_locals (pvParameters : Option paramStruct) : String × Nat :=
  let taskName :=
    match pvParameters with
    | none => defaultText
    | some params =>
      match params.text with
      | none => defaultText
      | some text => text
  let delay :=
    match pvParameters with
    | none => defaultDelay
    | some params => params.delay
  (taskName, delay)

/-- The calls made by the first `n` iterations of the loop of `vPeriodicTaskFunction`;
`portTICK_RATE_MS` is the kernel's tick period, a constant defined outside `Demo/`. -/
def vPeriodicTaskFunction (pvParameters : Option paramStruct) (portTICK_RATE_MS : Nat) :
    Nat → List Call
  | 0 => []
  | n + 1 =>
    vPeriodicTaskFunction pvParameters portTICK_RATE_MS n ++
      [.vPrintMsg (vPeriodicTaskFunction_locals pvParameters).1,
       .vTaskDelayUntil ((vPeriodicTaskFunction_locals pvParameters).2 / portTICK_RATE_MS)]

/-! ## Executable checks used by the proofs -/

/-- Whether `printNumber a` returns normally, having written the terminator at index 9 and at
most three digits, all inside `msg[0..9]`, and handing an index inside `msg[0..9]` and at most
three characters to `vDirectPrintMsg`. -/
def safeCall (a : Int) : Bool :=
  match printNumber a with
  | .printed (w :: ws) start text =>
    decide (w = 9) && decide (ws.length ≤ 3) && decide (text.length ≤ 3) &&
      (w :: ws).all (fun i => decide (0 ≤ i) && decide (i ≤ 9)) &&
      decide (0 ≤ start) && decide (start ≤ 9)
  | _ => false

/-- Whether `safeCall` holds for the `k` arguments `-256, -255, ..., -256 + k - 1`. -/
def safeBelow : Nat → Bool
  | 0 => true
  | k + 1 => safeBelow k && safeCall ((k : Int) - 256)

/-! ## Integer lemmas -/

theorem int_and_mask (c : Int) : int_and c 8388607 = c % 8388608 := by
  unfold int_and bits32
  have h : (8388607 % 4294967296 : Int).toNat = 2 ^ 23 - 1 := by decide
  rw [h, Nat.and_pow_two_sub_one_eq_mod]
  unfold wrap32
  simp only [Int.ofNat_eq_coe]
  omega

theorem wrap32_add (a b : Int) : wrap32 (wrap32 a + b) = wrap32 (a + b) := by
  unfold wrap32; omega

theorem wrap32_id (a : Int) (h : IsInt32 a) : wrap32 a = a := by
  unfold IsInt32 at h; unfold wrap32; omega

theorem wrap32_range (a : Int) : IsInt32 (wrap32 a) := by
  unfold IsInt32 wrap32; omega

theorem int_shr_23 (a : Int) : int_shr a 23 = a / 8388608 := by
  unfold int_shr
  rw [Int.shiftRight_eq_div_pow]; norm_num

theorem fires_iff (c : Int) : fires c = true ↔ c % 8388608 = 8388607 := by
  unfold fires; rw [int_and_mask]; simp

/-! ## The digit loop on non-negative arguments -/

theorem digitChar_ne_nul : ∀ r : Nat, r < 10 → Nat.digitChar r ≠ Char.ofNat 0 := by decide

theorem ofNat_digit : ∀ r : Nat, r < 10 → Char.ofNat (48 + r) = Nat.digitChar r := by decide

theorem digitOf_nat (n : Nat) : digitOf (n : Int) = Nat.digitChar (n % 10) := by
  unfold digitOf
  have h1 : Int.tmod (n : Int) 10 = ((n % 10 : Nat) : Int) := by
    rw [Int.tmod_eq_emod (by omega) (by omega)]; norm_cast
  have h2 : ((48 + ((n % 10 : Nat) : Int)) % 256).toNat = 48 + n % 10 := by omega
  rw [h1, h2]
  exact ofNat_digit _ (Nat.mod_lt _ (by decide))

theorem tdiv_nat (n : Nat) : Int.tdiv (n : Int) 10 = ((n / 10 : Nat) : Int) := by
  rw [Int.tdiv_eq_ediv (by omega) (by omega)]; norm_cast

theorem readString_chars (tl : List Char) (h : ∀ c ∈ tl, c ≠ Char.ofNat 0) (idx : Int)
    (acc : List Char) :
    readString (tl.map some ++ [some (Char.ofNat 0)]) idx acc = .ok (acc ++ tl) := by
  induction tl generalizing idx acc with
  | nil => simp [readString]
  | cons c tl ih =>
    have hc : c ≠ Char.ofNat 0 := h c (by simp)
    have e := ih (fun d hd => h d (by simp [hd])) (idx + 1) (acc ++ [c])
    simp only [List.map_cons, List.cons_append, readString, if_neg hc]
    simpa using e

theorem emitFrom_chars (junk : Buffer) (tl : List Char) (h : ∀ c ∈ tl, c ≠ Char.ofNat 0)
    (ws : List Int) :
    emitFrom (junk ++ (tl.map some ++ [some (Char.ofNat 0)])) (junk.length : Int) ws
      = .printed ws (junk.length : Int) (String.mk tl) := by
  unfold emitFrom
  have hc : (0 : Int) ≤ (junk.length : Int) ∧ (junk.length : Int)
      < ((junk ++ (tl.map some ++ [some (Char.ofNat 0)])).length : Int) := by
    simp only [List.length_append, List.length_map, List.length_singleton]
    omega
  rw [if_pos hc, Int.toNat_ofNat, List.drop_left, readString_chars tl h]
  simp

theorem store_last (junk : Buffer) (x : Option Char) (rest : Buffer) (c : Char) :
    store (junk ++ [x] ++ rest) (((junk ++ [x]).length : Int) - 1) c
      = some (junk ++ ([some c] ++ rest)) := by
  unfold store
  have hc : (0 : Int) ≤ ((junk ++ [x]).length : Int) - 1 ∧ ((junk ++ [x]).length : Int) - 1
      < ((junk ++ [x] ++ rest).length : Int) := by
    simp only [List.length_append, List.length_singleton]
    omega
  have ht : (((junk ++ [x]).length : Int) - 1).toNat = junk.length := by
    simp only [List.length_append, List.length_singleton]
    omega
  rw [if_pos hc, ht]
  simp

theorem printLoop_nat (n : Nat) : ∀ (fuel : Nat) (junk : Buffer) (tl : List Char) (ws : List Int),
    n ≤ fuel → (Nat.digits 10 n).length ≤ junk.length → (∀ c ∈ tl, c ≠ Char.ofNat 0) →
    printLoop fuel (n : Int) ((junk.length : Int) - 1)
        (junk ++ (tl.map some ++ [some (Char.ofNat 0)])) ws
      = .printed
          (ws ++ (List.range (Nat.digits 10 n).length).map
            (fun (k : Nat) => (junk.length : Int) - 1 - (k : Int)))
          ((junk.length : Int) - ((Nat.digits 10 n).length : Int))
          (String.mk (((Nat.digits 10 n).reverse.map Nat.digitChar) ++ tl)) := by
  induction n using Nat.strong_induction_on with
  | _ n ih =>
    intro fuel junk tl ws hf hd htl
    rcases Nat.eq_zero_or_pos n with h0 | hpos
    · subst h0
      have e := emitFrom_chars junk tl htl ws
      cases fuel <;> simpa [printLoop] using e
    · obtain ⟨f, rfl⟩ : ∃ f, fuel = f + 1 := ⟨fuel - 1, by omega⟩
      have hdig := Nat.digits_def' (by decide : 1 < 10) hpos
      rw [hdig] at hd ⊢
      simp only [List.length_cons] at hd ⊢
      obtain ⟨junk1, x, rfl⟩ : ∃ j x, junk = j ++ [x] := by
        rcases List.eq_nil_or_concat junk with h | ⟨j, x, h⟩
        · subst h; simp at hd
        · exact ⟨j, x, by simpa using h⟩
      have hn0 : (n : Int) ≠ 0 := by omega
      have hst := store_last junk1 x (tl.map some ++ [some (Char.ofNat 0)]) (digitOf (n : Int))
      rw [digitOf_nat] at hst
      simp only [printLoop, if_neg hn0, tdiv_nat, digitOf_nat, hst]
      have hlen : ((junk1 ++ [x]).length : Int) - 1 - 1 = (junk1.length : Int) - 1 := by
        simp only [List.length_append, List.length_singleton]; omega
      have hd1 : (Nat.digits 10 (n / 10)).length ≤ junk1.length := by
        simp only [List.length_append, List.length_singleton] at hd; omega
      have htl1 : ∀ c ∈ Nat.digitChar (n % 10) :: tl, c ≠ Char.ofNat 0 := by
        intro c hc
        rcases List.mem_cons.mp hc with h | h
        · rw [h]; exact digitChar_ne_nul _ (Nat.mod_lt _ (by decide))
        · exact htl c h
      have e := ih (n / 10) (Nat.div_lt_self hpos (by decide)) f junk1
        (Nat.digitChar (n % 10) :: tl) (ws ++ [((junk1 ++ [x]).length : Int) - 1])
        (by omega) hd1 htl1
      rw [hlen]
      simp only [List.map_cons, List.singleton_append] at e ⊢
      refine Eq.trans e ?_
      simp only [List.range_succ_eq_map, List.map_cons, List.map_map, List.length_append,
        List.length_singleton, List.reverse_cons, List.map_append, List.append_assoc,
        List.singleton_append, List.map_nil]
      congr 1
      · congr 1
        simp only [Nat.cast_add, Nat.cast_one, Nat.cast_zero, List.cons.injEq]
        refine ⟨by omega, ?_⟩
        apply List.map_congr_left
        intro k _
        simp only [Function.comp, Nat.cast_succ]
        omega
      · push_cast; omega

theorem printLoop_nat_overflow (n : Nat) : ∀ (fuel : Nat) (junk : Buffer) (tl : List Char)
    (ws : List Int), n ≤ fuel → junk.length < (Nat.digits 10 n).length →
    printLoop fuel (n : Int) ((junk.length : Int) - 1)
        (junk ++ (tl.map some ++ [some (Char.ofNat 0)])) ws = .outOfBounds (-1) := by
  induction n using Nat.strong_induction_on with
  | _ n ih =>
    intro fuel junk tl ws hf hd
    rcases Nat.eq_zero_or_pos n with h0 | hpos
    · subst h0; simp at hd
    · obtain ⟨f, rfl⟩ : ∃ f, fuel = f + 1 := ⟨fuel - 1, by omega⟩
      have hdig := Nat.digits_def' (by decide : 1 < 10) hpos
      rw [hdig] at hd
      simp only [List.length_cons] at hd
      have hn0 : (n : Int) ≠ 0 := by omega
      rcases List.eq_nil_or_concat junk with h | ⟨junk1, x, h⟩
      · subst h
        simp [printLoop, hn0, store]
      · have hj : junk = junk1 ++ [x] := by simpa using h
        subst hj
        have hst := store_last junk1 x (tl.map some ++ [some (Char.ofNat 0)]) (digitOf (n : Int))
        rw [digitOf_nat] at hst
        simp only [printLoop, if_neg hn0, tdiv_nat, digitOf_nat, hst]
        have hlen : ((junk1 ++ [x]).length : Int) - 1 - 1 = (junk1.length : Int) - 1 := by
          simp only [List.length_append, List.length_singleton]; omega
        have hd1 : junk1.length < (Nat.digits 10 (n / 10)).length := by
          simp only [List.length_append, List.length_singleton] at hd; omega
        have e := ih (n / 10) (Nat.div_lt_self hpos (by decide)) f junk1
          (Nat.digitChar (n % 10) :: tl) (ws ++ [((junk1 ++ [x]).length : Int) - 1])
          (by omega) hd1
        rw [hlen]
        simp only [List.map_cons, List.singleton_append] at e ⊢
        exact e

theorem toDigitsCore_digits : ∀ (fuel n : Nat) (ds : List Char), 0 < n → n < fuel →
    Nat.toDigitsCore 10 fuel n ds = (Nat.digits 10 n).reverse.map Nat.digitChar ++ ds := by
  intro fuel
  induction fuel with
  | zero => intro n ds _ h; omega
  | succ f ih =>
    intro n ds hpos hlt
    rw [Nat.digits_def' (by decide : 1 < 10) hpos]
    simp only [Nat.toDigitsCore]
    by_cases h : n / 10 = 0
    · simp [h]
    · rw [if_neg h, ih (n / 10) _ (Nat.pos_of_ne_zero h) (by omega)]
      simp

theorem repr_digits (n : Nat) (h : 0 < n) :
    Nat.repr n = String.mk ((Nat.digits 10 n).reverse.map Nat.digitChar) := by
  unfold Nat.repr Nat.toDigits
  rw [toDigitsCore_digits (n + 1) n [] h (by omega)]
  simp [List.asString]

theorem store_terminator :
    store msgInit 9 (Char.ofNat 0) = some (List.replicate 9 none ++ [some (Char.ofNat 0)]) := by
  decide

theorem printNumber_nat (n : Nat) (h : (Nat.digits 10 n).length ≤ 9) :
    printNumber (n : Int) = .printed
      ([9] ++ (List.range (Nat.digits 10 n).length).map (fun (k : Nat) => (8 : Int) - (k : Int)))
      (9 - ((Nat.digits 10 n).length : Int))
      (String.mk ((Nat.digits 10 n).reverse.map Nat.digitChar)) := by
  unfold printNumber
  rw [store_terminator]
  have e := printLoop_nat n n (List.replicate 9 none) [] [9] (le_refl _)
    (by simpa using h) (by simp)
  simp only [Int.natAbs_ofNat, List.length_replicate, List.map_nil, List.nil_append,
    List.append_nil] at e ⊢
  exact e

theorem printNumber_nat_overflow (n : Nat) (h : 9 < (Nat.digits 10 n).length) :
    printNumber (n : Int) = .outOfBounds (-1) := by
  unfold printNumber
  rw [store_terminator]
  have e := printLoop_nat_overflow n n (List.replicate 9 none) [] [9] (le_refl _)
    (by simpa using h)
  simp only [Int.natAbs_ofNat, List.length_replicate, List.map_nil, List.nil_append] at e ⊢
  exact e

theorem digits_length_le_nine (n : Nat) (h : n ≤ 999999999) : (Nat.digits 10 n).length ≤ 9 := by
  have h1 := Nat.le_digits_len_le 10 n 999999999 h
  have h2 : (Nat.digits 10 999999999).length = 9 := by norm_num
  omega

theorem nine_lt_digits_length (n : Nat) (h : 1000000000 ≤ n) : 9 < (Nat.digits 10 n).length := by
  by_contra hc
  have h1 : n < 10 ^ (Nat.digits 10 n).length := Nat.lt_base_pow_length_digits (by decide)
  have h2 : 10 ^ (Nat.digits 10 n).length ≤ 10 ^ 9 :=
    Nat.pow_le_pow_right (by decide) (by omega)
  have h3 : (10 : Nat) ^ 9 = 1000000000 := by norm_num
  omega

/-! ## Termination of the digit loop -/

theorem natAbs_tdiv_lt (nr : Int) (h : nr ≠ 0) : (Int.tdiv nr 10).natAbs < nr.natAbs := by
  rw [Int.natAbs_tdiv]
  have hp : 0 < nr.natAbs := Int.natAbs_pos.mpr h
  exact Nat.div_lt_self hp (by decide)

theorem readString_no_fuel (cells : List (Option Char)) : ∀ (idx : Int) (acc : List Char),
    readString cells idx acc ≠ .error .outOfFuel := by
  induction cells with
  | nil => intro idx acc; simp [readString]
  | cons x rest ih =>
    intro idx acc
    cases x with
    | none => simp [readString]
    | some c =>
      simp only [readString]
      split
      · simp
      · exact ih _ _

theorem emitFrom_no_fuel (msg : Buffer) (start : Int) (ws : List Int) :
    emitFrom msg start ws ≠ .outOfFuel := by
  unfold emitFrom
  split
  · have h := readString_no_fuel (msg.drop start.toNat) start []
    split
    · simp
    · rename_i e he
      intro hc
      rw [hc] at he
      exact h he
  · simp

theorem printLoop_no_fuel : ∀ (fuel : Nat) (nr i : Int) (msg : Buffer) (ws : List Int),
    nr.natAbs ≤ fuel → printLoop fuel nr i msg ws ≠ .outOfFuel := by
  intro fuel
  induction fuel with
  | zero =>
    intro nr i msg ws h
    have h0 : nr = 0 := by omega
    simp only [printLoop, if_pos h0]
    exact emitFrom_no_fuel _ _ _
  | succ f ih =>
    intro nr i msg ws h
    simp only [printLoop]
    split
    · exact emitFrom_no_fuel _ _ _
    · rename_i hn
      split
      · simp
      · exact ih _ _ _ _ (by have := natAbs_tdiv_lt nr hn; omega)

/-- The digit loop of `printNumber` always finishes within the `|nr|` iterations the model
allots: the call never ends as `outOfFuel`. -/
theorem printNumber_terminates (nr : Int) : printNumber nr ≠ .outOfFuel := by
  unfold printNumber
  rw [store_terminator]
  exact printLoop_no_fuel _ _ _ _ _ (le_refl _)

/-! ## `printNumber` on the arguments the counter tasks pass -/

set_option maxRecDepth 100000 in
theorem safeBelow_all : safeBelow 512 = true := by decide

theorem safeBelow_spec : ∀ (k : Nat), safeBelow k = true →
    ∀ j : Nat, j < k → safeCall ((j : Int) - 256) = true := by
  intro k
  induction k with
  | zero => intro _ j hj; omega
  | succ k ih =>
    intro h j hj
    simp only [safeBelow, Bool.and_eq_true] at h
    rcases Nat.lt_succ_iff_lt_or_eq.mp hj with hlt | heq
    · exact ih h.1 j hlt
    · rw [heq]; exact h.2

theorem safeCall_of_range (a : Int) (h1 : -256 ≤ a) (h2 : a ≤ 255) : safeCall a = true := by
  have h := safeBelow_spec 512 safeBelow_all (a + 256).toNat (by omega)
  have e : (((a + 256).toNat : Nat) : Int) - 256 = a := by omega
  rwa [e] at h

theorem printed_of_safeCall (a : Int) (h : safeCall a = true) :
    ∃ ws start text, printNumber a = .printed (9 :: ws) start text ∧ ws.length ≤ 3 ∧
      text.length ≤ 3 ∧ (∀ i ∈ (9 : Int) :: ws, 0 ≤ i ∧ i ≤ 9) ∧ 0 ≤ start ∧ start ≤ 9 := by
  unfold safeCall at h
  split at h
  · rename_i w ws start text he
    simp only [Bool.and_eq_true, decide_eq_true_eq, List.all_eq_true] at h
    obtain ⟨⟨⟨⟨⟨hw, hl⟩, ht⟩, hall⟩, hs0⟩, hs9⟩ := h
    subst hw
    exact ⟨ws, start, text, he, hl, ht, hall, hs0, hs9⟩
  · exact absurd h (by simp)

theorem shr_range (c : Int) (h : IsInt32 c) : -256 ≤ int_shr c 23 ∧ int_shr c 23 ≤ 255 := by
  unfold IsInt32 at h
  rw [int_shr_23]
  omega

theorem printNumber_shr (c : Int) (h : IsInt32 c) :
    ∃ ws start, printNumber (int_shr c 23) = .printed ws start (textOf (int_shr c 23)) := by
  have hr := shr_range c h
  obtain ⟨ws, start, text, he, _⟩ :=
    printed_of_safeCall _ (safeCall_of_range _ hr.1 hr.2)
  refine ⟨9 :: ws, start, ?_⟩
  unfold textOf
  rw [he]

/-! ## The counter tasks -/

theorem body_eq (t : CounterTask) (g : Globals) :
    t.body g = some (t.update g (wrap32 (t.counter g + 1))
      (g.log ++ emission t (wrap32 (t.counter g + 1)))) := by
  obtain ⟨ws, start, he⟩ := printNumber_shr _ (wrap32_range (t.counter g + 1))
  cases t
  all_goals
    simp only [CounterTask.body, CounterTask.update, CounterTask.counter, pinky, brain, droopy,
      emission, fires, vDirectPrintMsg, CounterTask.label] at he ⊢
    split
    · rename_i hf
      simp [hf, he]
    · rename_i hf
      simp [hf]

theorem update_update (t : CounterTask) (g : Globals) (c d : Int) (l m : List String) :
    t.update (t.update g c l) d m = t.update g d m := by
  cases t <;> rfl

theorem counter_update (t : CounterTask) (g : Globals) (c : Int) (l : List String) :
    t.counter (t.update g c l) = c := by
  cases t <;> rfl

theorem log_update (t : CounterTask) (g : Globals) (c : Int) (l : List String) :
    (t.update g c l).log = l := by
  cases t <;> rfl

theorem other_update (t u : CounterTask) (h : u ≠ t) (g : Globals) (c : Int) (l : List String) :
    u.counter (t.update g c l) = u.counter g := by
  cases t <;> cases u <;> first | rfl | exact absurd rfl h

theorem update_self (t : CounterTask) (g : Globals) : t.update g (t.counter g) g.log = g := by
  cases t <;> rfl

theorem run_eq (t : CounterTask) (g : Globals) (h : IsInt32 (t.counter g)) : ∀ k : Nat,
    run t k g = some (t.update g (wrap32 (t.counter g + (k : Int)))
      (g.log ++ emissions t (t.counter g) k)) := by
  intro k
  induction k with
  | zero =>
    simp only [run, emissions, Nat.cast_zero, add_zero, List.append_nil, wrap32_id _ h,
      update_self]
  | succ k ih =>
    simp only [run, ih, Option.some_bind, body_eq, counter_update, log_update, update_update,
      wrap32_add, emissions, List.append_assoc]
    have e : t.counter g + (k : Int) + 1 = t.counter g + ((k + 1 : Nat) : Int) := by
      push_cast; ring
    rw [e]

theorem fires_wrap32 (x : Int) : fires (wrap32 x) = true ↔ x % 8388608 = 8388607 := by
  rw [fires_iff]; unfold wrap32; omega

theorem emission_quiet (t : CounterTask) (x : Int) (h : x % 8388608 ≠ 8388607) :
    emission t (wrap32 x) = [] := by
  unfold emission
  rw [if_neg (fun hc => h ((fires_wrap32 x).mp hc))]

theorem emission_fire (t : CounterTask) (x : Int) (h : x % 8388608 = 8388607) :
    emission t (wrap32 x) = [t.label, textOf (int_shr (wrap32 x) 23), "\r\n"] := by
  unfold emission
  rw [if_pos ((fires_wrap32 x).mpr h)]

theorem emissions_add (t : CounterTask) (c : Int) (a : Nat) : ∀ b : Nat,
    emissions t c (a + b) = emissions t c a ++ emissions t (c + (a : Int)) b := by
  intro b
  induction b with
  | zero => simp [emissions]
  | succ b ih =>
    have e : c + (((a + (b + 1) : Nat)) : Int) = c + (a : Int) + ((b + 1 : Nat) : Int) := by
      push_cast; ring
    rw [← Nat.add_assoc]
    simp only [emissions, ih, List.append_assoc]
    rw [Nat.add_assoc, e]

theorem emissions_quiet (t : CounterTask) (c : Int) : ∀ n : Nat,
    (∀ j : Nat, 1 ≤ j → j ≤ n → (c + (j : Int)) % 8388608 ≠ 8388607) →
    emissions t c n = [] := by
  intro n
  induction n with
  | zero => intro _; rfl
  | succ n ih =>
    intro h
    simp only [emissions]
    rw [ih (fun j h1 h2 => h j h1 (by omega)), emission_quiet t _ (h (n + 1) (by omega) (le_refl _))]
    rfl

theorem emissions_schedule (t : CounterTask) (c0 : Nat) (h0 : c0 + 1 < 8388608) : ∀ n : Nat,
    c0 + n ≤ 2147483647 →
    emissions t (c0 : Int) n = schedule t ((c0 + n + 1) / 8388608) := by
  intro n
  induction n with
  | zero =>
    intro _
    have e : (c0 + 0 + 1) / 8388608 = 0 := by omega
    rw [e]; rfl
  | succ n ih =>
    intro h
    simp only [emissions]
    rw [ih (by omega)]
    have hw : wrap32 ((c0 : Int) + ((n + 1 : Nat) : Int)) = ((c0 + n + 1 : Nat) : Int) := by
      rw [wrap32_id _ (by unfold IsInt32; omega)]; push_cast; ring
    by_cases hf : (c0 + n + 1) % 8388608 = 8388607
    · have e : (c0 + (n + 1) + 1) / 8388608 = (c0 + n + 1) / 8388608 + 1 := by omega
      have e2 : ((c0 + n + 1 : Nat) : Int) / 8388608 = (((c0 + n + 1) / 8388608 : Nat) : Int) := by
        omega
      rw [e, emission_fire t _ (by omega), hw, int_shr_23, e2]
      rfl
    · have e : (c0 + (n + 1) + 1) / 8388608 = (c0 + n + 1) / 8388608 := by omega
      rw [e, emission_quiet t _ (by omega)]
      simp

theorem counter_boot (t : CounterTask) : t.counter boot = (t.initial : Int) := by
  cases t <;> rfl

theorem initial_le (t : CounterTask) : t.initial ≤ 2 := by
  cases t <;> decide

theorem schedule_length (t : CounterTask) : ∀ k : Nat, (schedule t k).length = 3 * k := by
  intro k
  induction k with
  | zero => rfl
  | succ k ih => simp only [schedule, List.length_append, ih, List.length_cons, List.length_nil]; omega

theorem run_boot (t : CounterTask) (n : Nat) (h : t.initial + n ≤ 2147483647) :
    run t n boot = some (t.update boot ((t.initial : Int) + (n : Int))
      (schedule t ((t.initial + n + 1) / 8388608))) := by
  have hi := initial_le t
  have hb : IsInt32 (t.counter boot) := by rw [counter_boot]; unfold IsInt32; omega
  rw [run_eq t boot hb n, counter_boot, emissions_schedule t t.initial (by omega) n h,
    wrap32_id _ (by unfold IsInt32; omega)]
  rfl

theorem textOf_printed (a : Int) (h1 : -256 ≤ a) (h2 : a ≤ 255) :
    ∃ ws start, printNumber a = .printed ws start (textOf a) := by
  obtain ⟨ws, start, text, he, _⟩ := printed_of_safeCall _ (safeCall_of_range _ h1 h2)
  refine ⟨9 :: ws, start, ?_⟩
  unfold textOf
  rw [he]

/-! ## The decimal printer -/

theorem rebase_zero (o : Outcome) : o.rebase 0 = o := by
  cases o <;> simp [Outcome.rebase]

/-- With no byte in front of `msg` the unchecked run is the bounds-checked `printNumber`. -/
theorem printNumberIn_zero (nr : Int) : printNumberIn 0 nr = printNumber nr := by
  unfold printNumberIn printNumber
  simp only [List.replicate_zero, List.nil_append, Nat.cast_zero, add_zero, store_terminator,
    rebase_zero]

/-- C2: `printNumber(0)` does not emit "0".  The loop body is never entered, only the
terminator at `msg[9]` is written, and `vDirectPrintMsg` receives the empty string at
`&msg[9]`. -/
theorem printNumber_zero_prints_nothing : printNumber 0 = .printed [9] 9 "" := by
  decide

/-- C5: `printNumber` is not buffer-safe on every non-negative `int`.  For every argument
from 1000000000 to 2147483647 (ten decimal digits) the call ends with a store to `msg[-1]`. -/
theorem printNumber_overflows_from_ten_digits (n : Nat)
    (h : 1000000000 ≤ n ∧ n ≤ 2147483647) :
    IsInt32 (n : Int) ∧ printNumber (n : Int) = .outOfBounds (-1) :=
  ⟨by unfold IsInt32; omega, printNumber_nat_overflow n (nine_lt_digits_length n h.1)⟩

/-- Instance at `INT_MAX`: the call `printNumber(2147483647)` stores to `msg[-1]`. -/
theorem printNumber_overflows_from_ten_digits_witness :
    (1000000000 ≤ 2147483647 ∧ 2147483647 ≤ 2147483647) ∧
      IsInt32 ((2147483647 : Nat) : Int) ∧
      printNumber ((2147483647 : Nat) : Int) = .outOfBounds (-1) :=
  ⟨by decide, printNumber_overflows_from_ten_digits 2147483647 (by decide)⟩

/-- C10: for every `n` with `1 ≤ n ≤ 999999999`, `printNumber(n)` returns normally, hands
`vDirectPrintMsg` exactly the standard decimal representation `Nat.repr n`, whose length is
the number of decimal digits of `n`, writes the terminator and one cell per digit, and every
index it writes and the start index it passes lie in `0..9`. -/
theorem printNumber_nine_digits (n : Nat) (h1 : 1 ≤ n) (h2 : n ≤ 999999999) :
    ∃ ws start, printNumber (n : Int) = .printed ws start (Nat.repr n) ∧
      (Nat.repr n).length = (Nat.digits 10 n).length ∧
      ws.length = (Nat.digits 10 n).length + 1 ∧
      start = 9 - ((Nat.digits 10 n).length : Int) ∧
      (∀ i ∈ ws, 0 ≤ i ∧ i ≤ 9) ∧ 0 ≤ start ∧ start ≤ 9 := by
  have hd := digits_length_le_nine n h2
  refine ⟨[9] ++ (List.range (Nat.digits 10 n).length).map
    (fun (k : Nat) => (8 : Int) - (k : Int)), 9 - ((Nat.digits 10 n).length : Int),
    ?_, ?_, ?_, rfl, ?_, ?_, ?_⟩
  · rw [printNumber_nat n hd, repr_digits n (by omega)]
  · rw [repr_digits n (by omega)]
    simp [String.length]
  · simp
  · intro i hi
    simp only [List.singleton_append, List.mem_cons, List.mem_map, List.mem_range] at hi
    rcases hi with rfl | ⟨k, hk, rfl⟩
    · omega
    · omega
  · omega
  · omega

/-- Instance at `n = 255`, the largest value the counter tasks pass. -/
theorem printNumber_nine_digits_witness :
    ∃ ws start, printNumber ((255 : Nat) : Int) = .printed ws start (Nat.repr 255) ∧
      (Nat.repr 255).length = (Nat.digits 10 255).length ∧
      ws.length = (Nat.digits 10 255).length + 1 ∧
      start = 9 - ((Nat.digits 10 255).length : Int) ∧
      (∀ i ∈ ws, 0 ≤ i ∧ i ≤ 9) ∧ 0 ≤ start ∧ start ≤ 9 :=
  printNumber_nine_digits 255 (by decide) (by decide)

/-- C9: for every 32-bit `int` counter value `c` the argument `c >> 23` lies in
`[-256, 255]`, and for every argument `a` in `[-256, 255]` the call `printNumber(a)` returns
normally, having written the terminator at index 9 and at most three further characters,
with every written index and the start index handed to `vDirectPrintMsg` in `0..9`. -/
theorem printNumber_safe_on_shifted_counter (c a : Int) (hc : IsInt32 c)
    (h1 : -256 ≤ a) (h2 : a ≤ 255) :
    (-256 ≤ int_shr c 23 ∧ int_shr c 23 ≤ 255) ∧
      ∃ ws start text, printNumber a = .printed (9 :: ws) start text ∧ ws.length ≤ 3 ∧
        text.length ≤ 3 ∧ (∀ i ∈ (9 : Int) :: ws, 0 ≤ i ∧ i ≤ 9) ∧ 0 ≤ start ∧ start ≤ 9 :=
  ⟨shr_range c hc, printed_of_safeCall a (safeCall_of_range a h1 h2)⟩

/-- Instance at the counter value `INT_MIN`, whose shifted value is the argument `-256`. -/
theorem printNumber_safe_on_shifted_counter_witness :
    IsInt32 (-2147483648) ∧ int_shr (-2147483648) 23 = -256 ∧
      (-256 ≤ int_shr (-2147483648) 23 ∧ int_shr (-2147483648) 23 ≤ 255) ∧
      ∃ ws start text, printNumber (-256) = .printed (9 :: ws) start text ∧ ws.length ≤ 3 ∧
        text.length ≤ 3 ∧ (∀ i ∈ (9 : Int) :: ws, 0 ≤ i ∧ i ≤ 9) ∧ 0 ≤ start ∧ start ≤ 9 :=
  ⟨by decide, by decide,
    printNumber_safe_on_shifted_counter (-2147483648) (-256) (by decide) (by decide) (by decide)⟩

/-! ## The message/delay task template -/

/-- C7: `vTaskFunction` and `vPeriodicTaskFunction` resolve their parameters identically:
without a struct the text is "<NO TEXT>\r\n" and the delay 1000; with a struct carrying a
text, the struct's text and delay; with a struct whose text is NULL, the placeholder text and
the struct's delay.  Every loop iteration prints the resolved text and then delays by the
resolved delay divided by the tick period. -/
theorem parameter_defaulting (text : String) (delay tick n : Nat) (pv : Option paramStruct) :
    vTaskFunction_locals none = ("<NO TEXT>\r\n", 1000) ∧
    vTaskFunction_locals (some { text := some text, delay := delay }) = (text, delay) ∧
    vTaskFunction_locals (some { text := none, delay := delay }) = ("<NO TEXT>\r\n", delay) ∧
    vPeriodicTaskFunction_locals pv = vTaskFunction_locals pv ∧
    vTaskFunction pv tick (n + 1) = vTaskFunction pv tick n ++
      [.vPrintMsg (vTaskFunction_locals pv).1,
       .vTaskDelay ((vTaskFunction_locals pv).2 / tick)] ∧
    vPeriodicTaskFunction pv tick (n + 1) = vPeriodicTaskFunction pv tick n ++
      [.vPrintMsg (vTaskFunction_locals pv).1,
       .vTaskDelayUntil ((vTaskFunction_locals pv).2 / tick)] :=
  ⟨rfl, rfl, rfl, rfl, rfl, rfl⟩

/-! ## The periodic counter tasks -/

/-- C6: the counters start at 0 (`tom`), 1 (`jerry`) and 2 (`popeye`), and `k` loop iterations
of a task, started in any state whose counter is a valid `int`, return a state in which the
task's counter is the old value plus `k` wrapped to 32 bits and the counters of the other two
tasks are unchanged. -/
theorem counter_monotonicity (t : CounterTask) (g : Globals) (k : Nat)
    (h : IsInt32 (t.counter g)) :
    (CounterTask.pinky.counter boot = 0 ∧ CounterTask.brain.counter boot = 1 ∧
      CounterTask.droopy.counter boot = 2) ∧
    ∃ g1, run t k g = some g1 ∧ t.counter g1 = wrap32 (t.counter g + (k : Int)) ∧
      ∀ u : CounterTask, u ≠ t → u.counter g1 = u.counter g :=
  ⟨⟨rfl, rfl, rfl⟩, _, run_eq t g h k, counter_update _ _ _ _,
    fun u hu => other_update t u hu _ _ _⟩

/-- Instance: three iterations of `brain` from the initial state. -/
theorem counter_monotonicity_witness :
    IsInt32 (CounterTask.brain.counter boot) ∧
    (CounterTask.pinky.counter boot = 0 ∧ CounterTask.brain.counter boot = 1 ∧
      CounterTask.droopy.counter boot = 2) ∧
    ∃ g1, run .brain 3 boot = some g1 ∧
      CounterTask.brain.counter g1 = wrap32 (CounterTask.brain.counter boot + ((3 : Nat) : Int)) ∧
      ∀ u : CounterTask, u ≠ .brain → u.counter g1 = u.counter boot :=
  ⟨by decide, counter_monotonicity .brain boot 3 (by decide)⟩

/-- C4: an iteration of a counter task, started in any state, increments the counter with
wrap-around and hands label, number text and "\r\n" to `vDirectPrintMsg` exactly when the
incremented counter satisfies `(counter & 0x7FFFFF) == 0x7FFFFF`, and logs nothing
otherwise.  From any valid `int` counter value, exactly one of the next 8388608 iterations
fires: the log is unchanged before iteration `j` and holds that one emission from iteration
`j` to the end of the window. -/
theorem trigger_exactness (t : CounterTask) (g : Globals) (h : IsInt32 (t.counter g)) :
    (∃ g1, t.body g = some g1 ∧ t.counter g1 = wrap32 (t.counter g + 1) ∧
      (int_and (t.counter g1) 8388607 = 8388607 →
        ∃ ws start text, printNumber (int_shr (t.counter g1) 23) = .printed ws start text ∧
          g1.log = g.log ++ [t.label, text, "\r\n"]) ∧
      (int_and (t.counter g1) 8388607 ≠ 8388607 → g1.log = g.log)) ∧
    ∃ (j : Nat) (text : String), 1 ≤ j ∧ j ≤ 8388608 ∧
      (∀ i : Nat, i < j → ∃ gi, run t i g = some gi ∧ gi.log = g.log) ∧
      (∀ i : Nat, j ≤ i → i ≤ 8388608 →
        ∃ gi, run t i g = some gi ∧ gi.log = g.log ++ [t.label, text, "\r\n"]) := by
  constructor
  · refine ⟨_, body_eq t g, counter_update _ _ _ _, ?_, ?_⟩
    · intro hf
      rw [counter_update] at hf ⊢
      obtain ⟨ws, start, he⟩ := printNumber_shr _ (wrap32_range (t.counter g + 1))
      refine ⟨ws, start, _, he, ?_⟩
      rw [log_update]
      unfold emission fires
      rw [decide_eq_true hf]
      rfl
    · intro hf
      rw [counter_update] at hf
      rw [log_update]
      unfold emission fires
      rw [decide_eq_false hf]
      simp
  · obtain ⟨j, hj⟩ : ∃ j : Nat, (j : Int) = (8388606 - t.counter g) % 8388608 + 1 :=
      ⟨((8388606 - t.counter g) % 8388608 + 1).toNat, by omega⟩
    have hquiet : emissions t (t.counter g) (j - 1) = [] :=
      emissions_quiet t _ _ (fun i h1 h2 => by omega)
    have hfire : emission t (wrap32 (t.counter g + (j : Int)))
        = [t.label, textOf (int_shr (wrap32 (t.counter g + (j : Int))) 23), "\r\n"] :=
      emission_fire t _ (by omega)
    refine ⟨j, textOf (int_shr (wrap32 (t.counter g + (j : Int))) 23), by omega, by omega,
      ?_, ?_⟩
    · intro i hi
      refine ⟨_, run_eq t g h i, ?_⟩
      rw [log_update, emissions_quiet t _ _ (fun k h1 h2 => by omega)]
      simp
    · intro i h1 h2
      refine ⟨_, run_eq t g h i, ?_⟩
      have e : i = (j - 1) + (1 + (i - j)) := by omega
      have e1 : t.counter g + ((j - 1 : Nat) : Int) + ((0 + 1 : Nat) : Int)
          = t.counter g + (j : Int) := by omega
      rw [log_update, e, emissions_add, emissions_add, hquiet]
      simp only [emissions, List.nil_append, e1, hfire]
      rw [emissions_quiet t _ _ (fun k h1 h2 => by omega)]
      simp

/-- Instance: `pinky` from the initial state. -/
theorem trigger_exactness_witness :
    IsInt32 (CounterTask.pinky.counter boot) ∧
    ((∃ g1, CounterTask.pinky.body boot = some g1 ∧
      CounterTask.pinky.counter g1 = wrap32 (CounterTask.pinky.counter boot + 1) ∧
      (int_and (CounterTask.pinky.counter g1) 8388607 = 8388607 →
        ∃ ws start text,
          printNumber (int_shr (CounterTask.pinky.counter g1) 23) = .printed ws start text ∧
          g1.log = boot.log ++ [CounterTask.pinky.label, text, "\r\n"]) ∧
      (int_and (CounterTask.pinky.counter g1) 8388607 ≠ 8388607 → g1.log = boot.log)) ∧
    ∃ (j : Nat) (text : String), 1 ≤ j ∧ j ≤ 8388608 ∧
      (∀ i : Nat, i < j → ∃ gi, run .pinky i boot = some gi ∧ gi.log = boot.log) ∧
      (∀ i : Nat, j ≤ i → i ≤ 8388608 →
        ∃ gi, run .pinky i boot = some gi ∧
          gi.log = boot.log ++ [CounterTask.pinky.label, text, "\r\n"])) :=
  ⟨by decide, trigger_exactness .pinky boot (by decide)⟩

/-- C8: for a counter task started from the initial state and every `k` with
`1 ≤ k ≤ 256`, the log after `k * 2^23 - 2 - c0` iterations holds exactly the first `k - 1`
emissions, and iteration number `k * 2^23 - 1 - c0` makes emission number `k`: it leaves the
counter at `k * 2^23 - 1`, the trigger test holds there, the value `counter >> 23` passed to
`printNumber` is `k - 1`, and label, the text `printNumber` returns for `k - 1` and "\r\n"
are appended to the log. -/
theorem firing_schedule (t : CounterTask) (k : Nat) (h1 : 1 ≤ k) (h2 : k ≤ 256) :
    t.counter boot = (t.initial : Int) ∧
    ∃ g1 g2 ws start text,
      run t (k * 8388608 - 1 - t.initial - 1) boot = some g1 ∧
      g1.log = schedule t (k - 1) ∧ g1.log.length = 3 * (k - 1) ∧
      run t (k * 8388608 - 1 - t.initial) boot = some g2 ∧
      t.counter g2 = (k : Int) * 8388608 - 1 ∧
      int_and (t.counter g2) 8388607 = 8388607 ∧
      int_shr (t.counter g2) 23 = (k : Int) - 1 ∧
      printNumber ((k : Int) - 1) = .printed ws start text ∧
      g2.log = g1.log ++ [t.label, text, "\r\n"] := by
  have hi := initial_le t
  obtain ⟨ws, start, he⟩ := textOf_printed ((k : Int) - 1) (by omega) (by omega)
  have e1 : (t.initial + (k * 8388608 - 1 - t.initial - 1) + 1) / 8388608 = k - 1 := by omega
  have e2 : (t.initial + (k * 8388608 - 1 - t.initial) + 1) / 8388608 = (k - 1) + 1 := by omega
  have e3 : (t.initial : Int) + ((k * 8388608 - 1 - t.initial : Nat) : Int)
      = (k : Int) * 8388608 - 1 := by omega
  have e4 : (((k - 1 : Nat) : Nat) : Int) = (k : Int) - 1 := by omega
  refine ⟨counter_boot t, _, _, ws, start, _, run_boot t _ (by omega), ?_, ?_,
    run_boot t _ (by omega), ?_, ?_, ?_, he, ?_⟩
  · rw [log_update, e1]
  · rw [log_update, e1, schedule_length]
  · rw [counter_update, e3]
  · rw [counter_update, e3, int_and_mask]; omega
  · rw [counter_update, e3, int_shr_23]; omega
  · rw [log_update, log_update, e1, e2]
    simp only [schedule, e4]

/-- Instance: the second emission of `droopy`. -/
theorem firing_schedule_witness :
    (1 ≤ 2 ∧ 2 ≤ 256) ∧
    CounterTask.droopy.counter boot = (CounterTask.droopy.initial : Int) ∧
    ∃ g1 g2 ws start text,
      run .droopy (2 * 8388608 - 1 - CounterTask.droopy.initial - 1) boot = some g1 ∧
      g1.log = schedule .droopy (2 - 1) ∧ g1.log.length = 3 * (2 - 1) ∧
      run .droopy (2 * 8388608 - 1 - CounterTask.droopy.initial) boot = some g2 ∧
      CounterTask.droopy.counter g2 = ((2 : Nat) : Int) * 8388608 - 1 ∧
      int_and (CounterTask.droopy.counter g2) 8388607 = 8388607 ∧
      int_shr (CounterTask.droopy.counter g2) 23 = ((2 : Nat) : Int) - 1 ∧
      printNumber (((2 : Nat) : Int) - 1) = .printed ws start text ∧
      g2.log = g1.log ++ [CounterTask.droopy.label, text, "\r\n"] :=
  ⟨by decide, firing_schedule .droopy 2 (by decide) (by decide)⟩

theorem log_after (n : Nat) (h : n ≤ 2147483647) :
    (run .pinky n boot).map Globals.log = some (schedule .pinky ((n + 1) / 8388608)) := by
  have e := run_boot .pinky n (by simpa [CounterTask.initial] using h)
  rw [e]
  simp [CounterTask.initial, log_update]

theorem schedule_pinky_0 : schedule .pinky 0 = [] := rfl

theorem schedule_pinky_1 : schedule .pinky 1 = ["tom: ", "", "\r\n"] := by decide

theorem schedule_pinky_2 :
    schedule .pinky 2 = ["tom: ", "", "\r\n", "tom: ", "1", "\r\n"] := by decide

theorem schedule_pinky_3 :
    schedule .pinky 3 = ["tom: ", "", "\r\n", "tom: ", "1", "\r\n", "tom: ", "2", "\r\n"] := by
  decide

/-- C3, as stated, fails for `pinky` from the initial state: after 8388607 iterations the
total output is already "tom: \r\n"; after 8388608 iterations it is still "tom: \r\n" and not
"tom: 1\r\n"; after 16777216 iterations it is "tom: \r\ntom: 1\r\n", in which no "2" was
printed. -/
theorem pinky_scenario_counterexample :
    (run .pinky 8388607 boot).map output = some "tom: \r\n" ∧
    (run .pinky 8388608 boot).map output = some "tom: \r\n" ∧
    (run .pinky 16777216 boot).map output = some "tom: \r\ntom: 1\r\n" ∧
    ¬ ((run .pinky 8388607 boot).map output = some "" ∧
       (run .pinky 8388608 boot).map output = some "tom: 1\r\n" ∧
       ∃ g, run .pinky 16777216 boot = some g ∧ "2" ∈ g.log) := by
  have a := run_boot .pinky 8388607 (by decide)
  have b := run_boot .pinky 8388608 (by decide)
  have c := run_boot .pinky 16777216 (by decide)
  have ha : (run .pinky 8388607 boot).map output = some "tom: \r\n" := by
    rw [a]; decide
  have hb : (run .pinky 8388608 boot).map output = some "tom: \r\n" := by
    rw [b]; decide
  have hc : (run .pinky 16777216 boot).map output = some "tom: \r\ntom: 1\r\n" := by
    rw [c]; decide
  refine ⟨ha, hb, hc, ?_⟩
  rintro ⟨h, _, _⟩
  rw [ha] at h
  exact absurd h (by decide)

/-- C3, amended: for `pinky` from the initial state nothing has been emitted after 8388606
iterations; iteration 8388607 makes the first emission, the label "tom: ", the text
`printNumber` returns for 0, and "\r\n"; the log is unchanged up to iteration 16777214;
iteration 16777215 appends "tom: ", "1", "\r\n", which is therefore in the log exactly once
after 16777216 iterations; the log is unchanged up to iteration 25165822 and iteration
25165823 appends "tom: ", "2", "\r\n". -/
theorem pinky_scenario :
    ∃ ws start text0, printNumber 0 = .printed ws start text0 ∧
      (run .pinky 8388606 boot).map Globals.log = some [] ∧
      (run .pinky 8388607 boot).map Globals.log = some ["tom: ", text0, "\r\n"] ∧
      (run .pinky 16777214 boot).map Globals.log = some ["tom: ", text0, "\r\n"] ∧
      (run .pinky 16777215 boot).map Globals.log
        = some ["tom: ", text0, "\r\n", "tom: ", "1", "\r\n"] ∧
      (run .pinky 16777216 boot).map Globals.log
        = some ["tom: ", text0, "\r\n", "tom: ", "1", "\r\n"] ∧
      (run .pinky 25165822 boot).map Globals.log
        = some ["tom: ", text0, "\r\n", "tom: ", "1", "\r\n"] ∧
      (run .pinky 25165823 boot).map Globals.log
        = some ["tom: ", text0, "\r\n", "tom: ", "1", "\r\n", "tom: ", "2", "\r\n"] := by
  refine ⟨[9], 9, "", by decide, ?_, ?_, ?_, ?_, ?_, ?_, ?_⟩
  · rw [log_after _ (by decide)]; exact congrArg some schedule_pinky_0
  · rw [log_after _ (by decide)]; exact congrArg some schedule_pinky_1
  · rw [log_after _ (by decide)]; exact congrArg some schedule_pinky_1
  · rw [log_after _ (by decide)]; exact congrArg some schedule_pinky_2
  · rw [log_after _ (by decide)]; exact congrArg some schedule_pinky_2
  · rw [log_after _ (by decide)]; exact congrArg some schedule_pinky_2
  · rw [log_after _ (by decide)]; exact congrArg some schedule_pinky_3

end Demo
